import Mathlib

/-
  Verification development for the DanCache two-tier cache
  (Go sources: cache.go, strategy.go).

  The Go code is shallowly embedded: the L1 sync.Map becomes an
  association list with unique keys, the `itemCount` field is a Go int
  modelled as ℤ, wall-clock seconds are ℤ, and the Redis (L2) tier is
  modelled as either `down` (every call fails) or an association list of
  serialized envelopes.  Redis key expiry is derived from the stored
  envelope's `expire_time` field: at every call site of the source the
  EX argument passed to Redis equals `ExpireTime - now`, so the Redis
  deadline of a stored key always coincides with the envelope field.
  Go `encoding/json` round-trips of the dynamically typed user value are
  modelled explicitly (a JSON number unmarshalled into an interface
  value comes back as a float64, not an int).
-/

namespace Cache

/-- Model of a JSON document as produced by Go encoding/json for the
payloads this cache serializes: null, booleans, numbers (carried
exactly), and strings. -/
inductive Json where
  | jNull : Json
  | jBool : Bool → Json
  | jNum : Rat → Json
  | jStr : String → Json
deriving DecidableEq

/-- A dynamically typed Go value as stored in CacheItem.Value.  Go
distinguishes the dynamic types int64 and float64 even when the numeric
values agree; json.Unmarshal into an interface value always produces
float64 for JSON numbers. -/
inductive GoValue where
  | VNull : GoValue
  | VBool : Bool → GoValue
  | VInt : Int → GoValue
  | VFloat : Rat → GoValue
  | VString : String → GoValue
deriving DecidableEq

/-- json.Marshal of a user value. -/
def marshalValue : GoValue → Json
  | .VNull => .jNull
  | .VBool b => .jBool b
  | .VInt n => .jNum n
  | .VFloat q => .jNum q
  | .VString s => .jStr s

/-- json.Unmarshal of a JSON document into a Go interface value:
numbers come back as float64. -/
def unmarshalValue : Json → GoValue
  | .jNull => .VNull
  | .jBool b => .VBool b
  | .jNum q => .VFloat q
  | .jStr s => .VString s

/-- The L2 round-trip of a user value. -/
def roundtripValue (v : GoValue) : GoValue := unmarshalValue (marshalValue v)

/-- CacheItem from cache.go lines 35-41: the entry envelope. -/
structure CacheItem where
  Value : GoValue
  ExpireTime : Int
  CreateTime : Int
  AccessTime : Int
  AccessCount : Int
deriving DecidableEq

/-- The wire form of an envelope: json.Marshal of a CacheItem.  The
four metadata fields are int64 and round-trip exactly; the value field
is a JSON document. -/
structure SerializedItem where
  sValue : Json
  sExpire : Int
  sCreate : Int
  sAccess : Int
  sCount : Int
deriving DecidableEq

/-- json.Marshal of a CacheItem. -/
def marshalItem (it : CacheItem) : SerializedItem :=
  ⟨marshalValue it.Value, it.ExpireTime, it.CreateTime, it.AccessTime, it.AccessCount⟩

/-- json.Unmarshal of a serialized envelope back into a CacheItem. -/
def unmarshalItem (s : SerializedItem) : CacheItem :=
  ⟨unmarshalValue s.sValue, s.sExpire, s.sCreate, s.sAccess, s.sCount⟩

/-- Serialize then deserialize an envelope, as happens when it crosses
to L2 and back. -/
def roundtripItem (it : CacheItem) : CacheItem := unmarshalItem (marshalItem it)

/-- The access-metadata update performed on every successful read:
access_time := now, access_count += 1 (cache.go lines 267-268, 298-299,
379-380, 412-413). -/
def bump (it : CacheItem) (now : Int) : CacheItem :=
  { it with AccessTime := now, AccessCount := it.AccessCount + 1 }

/-- Lookup in an association list keyed by strings (the model of
sync.Map.Load). -/
def alookup {β : Type} : List (String × β) → String → Option β
  | [], _ => none
  | (k', v) :: l, k => if k' = k then some v else alookup l k

/-- Upsert into an association list (the model of sync.Map.Store):
replaces the binding in place if the key is present, otherwise appends
a fresh binding. -/
def astore {β : Type} : List (String × β) → String → β → List (String × β)
  | [], k, v => [(k, v)]
  | (k', v') :: l, k, v => if k' = k then (k, v) :: l else (k', v') :: astore l k v

/-- Removal from an association list (the model of sync.Map.Delete). -/
def aerase {β : Type} : List (String × β) → String → List (String × β)
  | [], _ => []
  | (k', v') :: l, k => if k' = k then l else (k', v') :: aerase l k

/-- Well-formedness of the association-list representation of a map:
keys are pairwise distinct. -/
def AWF {β : Type} (l : List (String × β)) : Prop := (l.map Prod.fst).Nodup

/-- FrequencyBasedStrategy from strategy.go lines 20-24. -/
structure FrequencyBasedStrategy where
  accessThreshold : Int
  timeWindow : Int
  idleTime : Int

/-- FrequencyBasedStrategy.ShouldPromote, strategy.go lines 36-49. -/
def FrequencyBasedStrategy.ShouldPromote (s : FrequencyBasedStrategy)
    (item : CacheItem) (now : Int) : Bool :=
  if 0 < s.accessThreshold ∧ 0 < s.timeWindow then
    if now - item.CreateTime ≤ s.timeWindow ∧ s.accessThreshold ≤ item.AccessCount then
      true
    else false
  else false

/-- FrequencyBasedStrategy.ShouldDemote, strategy.go lines 52-65. -/
def FrequencyBasedStrategy.ShouldDemote (s : FrequencyBasedStrategy)
    (item : CacheItem) (now : Int) : Bool :=
  if 0 < s.idleTime then
    if s.idleTime ≤ now - item.AccessTime then true else false
  else false

/-- The subset of CacheConfig the sequential model needs.  The
strategy interfaces become predicates on (entry, now). -/
structure Config where
  EnableL1Cache : Bool
  EnableL2Cache : Bool
  MaxL1Size : Int
  promotion : CacheItem → Int → Bool
  demotion : CacheItem → Int → Bool

/-- The Redis tier: either unreachable (every call errors) or an
association list of serialized envelopes. -/
inductive RedisState where
  | down : RedisState
  | up : List (String × SerializedItem) → RedisState
deriving DecidableEq

/-- redisClient.Set with EX ttl.  The Boolean reports success; the
source always passes ttl = ExpireTime - now, so the Redis deadline is
recoverable from the stored envelope. -/
def redisSet : RedisState → String → SerializedItem → RedisState × Bool
  | .down, _, _ => (.down, false)
  | .up s, k, v => (.up (astore s k v), true)

/-- redisClient.Del. -/
def redisDel : RedisState → String → RedisState × Bool
  | .down, _ => (.down, false)
  | .up s, k => (.up (aerase s k), true)

/-- redisClient.FlushDB. -/
def redisFlush : RedisState → RedisState × Bool
  | .down => (.down, false)
  | .up _ => (.up [], true)

/-- redisClient.Get: errors (down) and plain misses both yield none,
exactly as both branches of cache.go lines 282-288 yield a miss. -/
def l2fetch : RedisState → String → Option SerializedItem
  | .down, _ => none
  | .up s, k => alookup s k

/-- redisClient.TTL: none when the adapter call fails or the key is
absent; otherwise the residual life of the stored envelope (the Redis
deadline always equals the envelope's expire_time, see header). -/
def l2ttl (r : RedisState) (k : String) (now : Int) : Option Int :=
  (l2fetch r k).map (fun ser => ser.sExpire - now)

/-- The sequential state of a MultiLevelCache: the L1 map, the Go int
itemCount, and the L2 tier. -/
structure CacheState where
  l1 : List (String × CacheItem)
  itemCount : Int
  redis : RedisState
deriving DecidableEq

/-- The coupling invariant of sequential execution: L1 keys are
distinct and itemCount equals the cardinality of the L1 map. -/
def Inv (st : CacheState) : Prop :=
  AWF st.l1 ∧ st.itemCount = (st.l1.length : Int)

/-- localCache.Delete(k) followed by itemCount-- (the unconditional
pair used at cache.go lines 133-136, 152-154, 206-208, 273-274). -/
def stDeleteDec (st : CacheState) (k : String) : CacheState :=
  { st with l1 := aerase st.l1 k, itemCount := st.itemCount - 1 }

/-- Best-effort spill of an envelope to L2 during eviction/demotion
(cache.go lines 143-151 and 196-204): only when L2 is enabled and the
residual TTL is positive; failures are ignored. -/
def spill (cfg : Config) (now : Int) (st : CacheState) (k : String) (it : CacheItem) :
    CacheState :=
  if cfg.EnableL2Cache then
    if 0 < it.ExpireTime - now then
      { st with redis := (redisSet st.redis k (marshalItem it)).1 }
    else st
  else st

/-- One iteration of the eviction loop body (cache.go lines 191-209):
spill, then delete from L1 and decrement itemCount. -/
def evictStep (cfg : Config) (now : Int) (st : CacheState) (p : String × CacheItem) :
    CacheState :=
  stDeleteDec (spill cfg now st p.1 p.2) p.1

/-- The comparator of cache.go line 182: order solely by AccessTime.
No tie-break on CreateTime or key exists in the source. -/
def lruLe (a b : String × CacheItem) : Bool :=
  decide (a.2.AccessTime ≤ b.2.AccessTime)

/-- Insertion into a le-sorted list. -/
def insLe {α : Type} (le : α → α → Bool) (a : α) : List α → List α
  | [] => [a]
  | b :: l => if le a b then a :: b :: l else b :: insLe le a l

/-- Insertion sort; models sort.Slice: it produces a permutation of
its input that is non-decreasing under le.  Ties keep the input
(snapshot) order, one of the outcomes the unstable Go sort may
produce. -/
def sortLe {α : Type} (le : α → α → Bool) : List α → List α
  | [] => []
  | a :: l => insLe le a (sortLe le l)

/-- evictLRU, cache.go lines 165-210.  The snapshot produced by
sync.Map.Range is taken in the representation order of the model's L1
list; its order is unspecified in Go and is quantified over wherever a
claim depends on it. -/
def evictLRU (cfg : Config) (st : CacheState) (count now : Int) : CacheState :=
  let sorted := sortLe lruLe st.l1
  let evictCount := min count.toNat sorted.length
  (sorted.take evictCount).foldl (evictStep cfg now) st

/-- The L1 upsert of Set, cache.go lines 228-231: bump the counter
only when the key is new, then store. -/
def setL1Insert (st : CacheState) (k : String) (item : CacheItem) : CacheState :=
  { st with
    itemCount := if (alookup st.l1 k).isSome then st.itemCount else st.itemCount + 1,
    l1 := astore st.l1 k item }

/-- The L1 half of Set, cache.go lines 226-237: upsert, then enforce
the cap by evicting one item. -/
def setL1Phase (cfg : Config) (st : CacheState) (k : String) (item : CacheItem)
    (now : Int) : CacheState :=
  if cfg.EnableL1Cache then
    if 0 < cfg.MaxL1Size ∧ cfg.MaxL1Size < (setL1Insert st k item).itemCount then
      evictLRU cfg (setL1Insert st k item) 1 now
    else setL1Insert st k item
  else st

/-- The L2 half of Set, cache.go lines 240-250: mandatory write whose
failure is surfaced as the Go error return (Boolean false here). -/
def l2SetPhase (cfg : Config) (st1 : CacheState) (k : String) (item : CacheItem) :
    CacheState × Bool :=
  if cfg.EnableL2Cache then
    match redisSet st1.redis k (marshalItem item) with
    | (r, true) => ({ st1 with redis := r }, true)
    | (_, false) => (st1, false)
  else (st1, true)

/-- The fresh envelope built by Set, cache.go lines 217-223. -/
def mkItem (v : GoValue) (ttl now : Int) : CacheItem :=
  { Value := v, ExpireTime := now + ttl, CreateTime := now, AccessTime := now,
    AccessCount := 0 }

/-- Set, cache.go lines 213-253.  The Boolean result is true on
success, false when the mandatory L2 write failed (the Go error
return); L1 mutations persist either way. -/
def Set (cfg : Config) (st : CacheState) (k : String) (v : GoValue) (ttl now : Int) :
    CacheState × Bool :=
  l2SetPhase cfg (setL1Phase cfg st k (mkItem v ttl now) now) k (mkItem v ttl now)

/-- The L1 store performed on promotion, cache.go lines 304-305. -/
def promoteInsert (st : CacheState) (k : String) (item : CacheItem) : CacheState :=
  { st with l1 := astore st.l1 k item, itemCount := st.itemCount + 1 }

/-- The promotion block shared verbatim by Get (cache.go lines
302-311) and GetWithTTL (cache.go lines 416-425): if L1 is enabled and
the promotion strategy accepts the already-updated envelope, store it
into L1, bump the counter and enforce the cap. -/
def promotePhase (cfg : Config) (st : CacheState) (k : String) (item : CacheItem)
    (now : Int) : CacheState :=
  if cfg.EnableL1Cache && cfg.promotion item now then
    if 0 < cfg.MaxL1Size ∧ cfg.MaxL1Size < (promoteInsert st k item).itemCount then
      evictLRU cfg (promoteInsert st k item) 1 now
    else promoteInsert st k item
  else st

/-- The best-effort write-back of updated access metadata to L2,
cache.go lines 313-315 and 427-429; the result of the Redis call is
discarded. -/
def writebackPhase (st1 : CacheState) (k : String) (item : CacheItem) : CacheState :=
  { st1 with redis := (redisSet st1.redis k (marshalItem item)).1 }

/-- The L2 half of Get, cache.go lines 280-319: fetch, double-check
expiry, bump metadata, maybe promote into L1 (with cap check), then
best-effort write-back. -/
def GetL2 (cfg : Config) (st : CacheState) (k : String) (now : Int) :
    Option GoValue × CacheState :=
  if cfg.EnableL2Cache then
    match l2fetch st.redis k with
    | none => (none, st)
    | some ser =>
      if now < (unmarshalItem ser).ExpireTime then
        (some (bump (unmarshalItem ser) now).Value,
          writebackPhase (promotePhase cfg st k (bump (unmarshalItem ser) now) now) k
            (bump (unmarshalItem ser) now))
      else (none, st)
  else (none, st)

/-- Get, cache.go lines 256-322. -/
def Get (cfg : Config) (st : CacheState) (k : String) (now : Int) :
    Option GoValue × CacheState :=
  if cfg.EnableL1Cache then
    match alookup st.l1 k with
    | some item =>
      if now < item.ExpireTime then
        (some (bump item now).Value, { st with l1 := astore st.l1 k (bump item now) })
      else GetL2 cfg (stDeleteDec st k) k now
    | none => GetL2 cfg st k now
  else GetL2 cfg st k now

/-- The L2 half of GetWithTTL, cache.go lines 393-432: TTL query
first (failure or non-positive TTL is a miss), then fetch, bump,
maybe promote, write-back; there is no expire_time double check, the
positive-TTL test plays that role. -/
def GetWithTTLL2 (cfg : Config) (st : CacheState) (k : String) (now : Int) :
    Option (GoValue × Int) × CacheState :=
  if cfg.EnableL2Cache then
    match l2ttl st.redis k now with
    | none => (none, st)
    | some t =>
      if t ≤ 0 then (none, st)
      else
        match l2fetch st.redis k with
        | none => (none, st)
        | some ser =>
          (some ((bump (unmarshalItem ser) now).Value, t),
            writebackPhase (promotePhase cfg st k (bump (unmarshalItem ser) now) now) k
              (bump (unmarshalItem ser) now))
  else (none, st)

/-- GetWithTTL, cache.go lines 365-435. -/
def GetWithTTL (cfg : Config) (st : CacheState) (k : String) (now : Int) :
    Option (GoValue × Int) × CacheState :=
  if cfg.EnableL1Cache then
    match alookup st.l1 k with
    | some item =>
      if now < item.ExpireTime then
        (some ((bump item now).Value, item.ExpireTime - now),
          { st with l1 := astore st.l1 k (bump item now) })
      else GetWithTTLL2 cfg (stDeleteDec st k) k now
    | none => GetWithTTLL2 cfg st k now
  else GetWithTTLL2 cfg st k now

/-- The L2 half of Delete, cache.go lines 335-340. -/
def l2DelPhase (cfg : Config) (st1 : CacheState) (k : String) : CacheState × Bool :=
  if cfg.EnableL2Cache then
    match redisDel st1.redis k with
    | (r, true) => ({ st1 with redis := r }, true)
    | (_, false) => (st1, false)
  else (st1, true)

/-- The L1 half of Delete, cache.go lines 327-332. -/
def delL1Phase (cfg : Config) (st : CacheState) (k : String) : CacheState :=
  if cfg.EnableL1Cache then
    if (alookup st.l1 k).isSome then stDeleteDec st k else st
  else st

/-- Delete, cache.go lines 325-343. -/
def Delete (cfg : Config) (st : CacheState) (k : String) : CacheState × Bool :=
  l2DelPhase cfg (delL1Phase cfg st k) k

/-- The L2 half of Clear, cache.go lines 354-359. -/
def l2FlushPhase (cfg : Config) (st1 : CacheState) : CacheState × Bool :=
  if cfg.EnableL2Cache then
    match redisFlush st1.redis with
    | (r, true) => ({ st1 with redis := r }, true)
    | (_, false) => (st1, false)
  else (st1, true)

/-- The L1 half of Clear, cache.go lines 348-351. -/
def clearL1Phase (cfg : Config) (st : CacheState) : CacheState :=
  if cfg.EnableL1Cache then { st with l1 := [], itemCount := 0 } else st

/-- Clear, cache.go lines 346-362. -/
def Clear (cfg : Config) (st : CacheState) : CacheState × Bool :=
  l2FlushPhase cfg (clearL1Phase cfg st)

/-- One iteration of the demotion loop body of cleanupExpiredItems
(cache.go lines 139-156): re-load the key, spill, delete, decrement. -/
def demoteStep (cfg : Config) (now : Int) (st : CacheState) (k : String) : CacheState :=
  match alookup st.l1 k with
  | some item => stDeleteDec (spill cfg now st k item) k
  | none => st

/-- The expired keys collected by the Range pass of
cleanupExpiredItems (cache.go lines 118-122). -/
def expiredKeysOf (l : List (String × CacheItem)) (now : Int) : List String :=
  (l.filter (fun p => decide (p.2.ExpireTime ≤ now))).map Prod.fst

/-- The demotion candidates collected by the Range pass of
cleanupExpiredItems (cache.go lines 124-127): non-expired entries the
demotion strategy selects. -/
def demoteKeysOf (cfg : Config) (l : List (String × CacheItem)) (now : Int) : List String :=
  (l.filter (fun p => decide (now < p.2.ExpireTime) && cfg.demotion p.2 now)).map Prod.fst

/-- The expiry-purge and demotion phases of cleanupExpiredItems
(cache.go lines 109-156): delete every expired key, then process the
demotion candidates. -/
def cleanupPhase1 (cfg : Config) (st : CacheState) (now : Int) : CacheState :=
  (demoteKeysOf cfg st.l1 now).foldl (demoteStep cfg now)
    ((expiredKeysOf st.l1 now).foldl (fun s k => stDeleteDec s k) st)

/-- cleanupExpiredItems, cache.go lines 108-162: purge and demote,
then enforce the L1 cap. -/
def cleanupExpiredItems (cfg : Config) (st : CacheState) (now : Int) : CacheState :=
  if 0 < cfg.MaxL1Size ∧ cfg.MaxL1Size < (cleanupPhase1 cfg st now).itemCount then
    evictLRU cfg (cleanupPhase1 cfg st now)
      ((cleanupPhase1 cfg st now).itemCount - cfg.MaxL1Size) now
  else cleanupPhase1 cfg st now

/-- The lifecycle state Close touches: whether cleanupTicker is
non-nil, whether the stopCleanup channel has been closed, and whether
the Redis client is open. -/
structure CloseState where
  tickerActive : Bool
  stopClosed : Bool
  redisOpen : Bool
deriving DecidableEq

/-- The lifecycle state right after NewMultiLevelCache: the ticker
exists exactly when L1 is enabled (cache.go lines 86-89). -/
def newCloseState (cfg : Config) : CloseState :=
  ⟨cfg.EnableL1Cache, false, cfg.EnableL2Cache⟩

/-- The Redis half of Close (cache.go lines 487-489). -/
def closeRedis (cfg : Config) (st : CloseState) : CloseState :=
  if cfg.EnableL2Cache then { st with redisOpen := false } else st

/-- Close, cache.go lines 480-492.  close(c.stopCleanup) on an
already-closed Go channel panics, modelled as none. -/
def Close (cfg : Config) (st : CloseState) : Option CloseState :=
  if st.tickerActive then
    if st.stopClosed then none
    else some (closeRedis cfg { st with stopClosed := true })
  else some (closeRedis cfg st)

/-- Unfolding equation: lookup at a matching head. -/
theorem alookup_cons_self {β : Type} (l : List (String × β)) (k : String) (v : β) :
    alookup ((k, v) :: l) k = some v := by
  simp [alookup]

/-- Unfolding equation: lookup skips a non-matching head. -/
theorem alookup_cons_ne {β : Type} (l : List (String × β)) {k₁ k : String} (v₁ : β)
    (h : k₁ ≠ k) : alookup ((k₁, v₁) :: l) k = alookup l k := by
  simp [alookup, h]

/-- Unfolding equation: store replaces a matching head. -/
theorem astore_cons_self {β : Type} (l : List (String × β)) (k : String) (v₁ v : β) :
    astore ((k, v₁) :: l) k v = (k, v) :: l := by
  simp [astore]

/-- Unfolding equation: store skips a non-matching head. -/
theorem astore_cons_ne {β : Type} (l : List (String × β)) {k₁ k : String} (v₁ : β) (v : β)
    (h : k₁ ≠ k) : astore ((k₁, v₁) :: l) k v = (k₁, v₁) :: astore l k v := by
  simp [astore, h]

/-- Unfolding equation: erase drops a matching head. -/
theorem aerase_cons_self {β : Type} (l : List (String × β)) (k : String) (v₁ : β) :
    aerase ((k, v₁) :: l) k = l := by
  simp [aerase]

/-- Unfolding equation: erase skips a non-matching head. -/
theorem aerase_cons_ne {β : Type} (l : List (String × β)) {k₁ k : String} (v₁ : β)
    (h : k₁ ≠ k) : aerase ((k₁, v₁) :: l) k = (k₁, v₁) :: aerase l k := by
  simp [aerase, h]

/-- Looking up the key just stored finds the stored value. -/
theorem alookup_astore_self {β : Type} (l : List (String × β)) (k : String) (v : β) :
    alookup (astore l k v) k = some v := by
  induction l with
  | nil => simp [astore, alookup]
  | cons p l ih =>
    obtain ⟨k', v'⟩ := p
    by_cases h : k' = k <;> simp [astore, alookup, h, ih]

/-- Storing one key leaves lookups of other keys unchanged. -/
theorem alookup_astore_ne {β : Type} (l : List (String × β)) {k k' : String} (v : β)
    (h : k' ≠ k) : alookup (astore l k v) k' = alookup l k' := by
  induction l with
  | nil => simp [astore, alookup, Ne.symm h]
  | cons p l ih =>
    obtain ⟨k₁, v₁⟩ := p
    by_cases h1 : k₁ = k
    · subst h1
      simp [astore, alookup, Ne.symm h]
    · simp only [astore, if_neg h1, alookup]
      by_cases h2 : k₁ = k' <;> simp [h2, ih]

/-- Storing a present key preserves the map's cardinality. -/
theorem length_astore_isSome {β : Type} {l : List (String × β)} {k : String} (v : β)
    (h : (alookup l k).isSome) : (astore l k v).length = l.length := by
  induction l with
  | nil => simp [alookup] at h
  | cons p l ih =>
    obtain ⟨k₁, v₁⟩ := p
    by_cases h1 : k₁ = k
    · simp [astore, h1]
    · simp only [alookup, if_neg h1] at h
      simp [astore, if_neg h1, ih h]

/-- Storing an absent key grows the map's cardinality by one. -/
theorem length_astore_none {β : Type} {l : List (String × β)} {k : String} (v : β)
    (h : alookup l k = none) : (astore l k v).length = l.length + 1 := by
  induction l with
  | nil => simp [astore]
  | cons p l ih =>
    obtain ⟨k₁, v₁⟩ := p
    by_cases h1 : k₁ = k
    · simp [alookup, h1] at h
    · simp only [alookup, if_neg h1] at h
      simp [astore, if_neg h1, ih h]

/-- Key membership after a store. -/
theorem mem_keys_astore {β : Type} (l : List (String × β)) (k k' : String) (v : β) :
    k' ∈ (astore l k v).map Prod.fst ↔ k' ∈ l.map Prod.fst ∨ k' = k := by
  induction l with
  | nil =>
    simp only [astore, List.map_cons, List.map_nil, List.mem_cons, List.not_mem_nil]
    tauto
  | cons p l ih =>
    obtain ⟨k₁, v₁⟩ := p
    by_cases h1 : k₁ = k
    · subst h1
      simp only [astore_cons_self, List.map_cons, List.mem_cons]
      tauto
    · simp only [astore_cons_ne _ _ _ h1, List.map_cons, List.mem_cons, ih]
      tauto

/-- Storing preserves key distinctness. -/
theorem AWF_astore {β : Type} {l : List (String × β)} (k : String) (v : β)
    (h : AWF l) : AWF (astore l k v) := by
  induction l with
  | nil => simp [AWF, astore]
  | cons p l ih =>
    obtain ⟨k₁, v₁⟩ := p
    simp only [AWF, List.map_cons, List.nodup_cons] at h
    by_cases h1 : k₁ = k
    · subst h1
      simpa [AWF, astore] using h
    · have ihr := ih h.2
      simp only [AWF, astore, if_neg h1, List.map_cons, List.nodup_cons]
      refine ⟨fun hm => ?_, ihr⟩
      rcases (mem_keys_astore l k k₁ v).mp hm with hm | hm
      · exact h.1 hm
      · exact h1 hm

/-- Erasure is a sublist of the original. -/
theorem aerase_sublist {β : Type} (l : List (String × β)) (k : String) :
    (aerase l k).Sublist l := by
  induction l with
  | nil => simp [aerase]
  | cons p l ih =>
    obtain ⟨k₁, v₁⟩ := p
    by_cases h1 : k₁ = k
    · simp only [aerase, if_pos h1]
      exact List.sublist_cons_self _ _
    · simp only [aerase, if_neg h1]
      exact ih.cons₂ _

/-- Erasure preserves key distinctness. -/
theorem AWF_aerase {β : Type} {l : List (String × β)} (k : String) (h : AWF l) :
    AWF (aerase l k) := by
  exact h.sublist ((aerase_sublist l k).map Prod.fst)

/-- A key absent from the key list never resolves. -/
theorem alookup_eq_none {β : Type} {l : List (String × β)} {k : String}
    (h : k ∉ l.map Prod.fst) : alookup l k = none := by
  induction l with
  | nil => rfl
  | cons p l ih =>
    obtain ⟨k₁, v₁⟩ := p
    simp only [List.map_cons, List.mem_cons] at h
    push_neg at h
    have hk : ¬ k₁ = k := fun he => h.1 he.symm
    simp [alookup, hk, ih h.2]

/-- After erasing a key from a well-formed map it no longer resolves. -/
theorem alookup_aerase_self {β : Type} {l : List (String × β)} {k : String}
    (h : AWF l) : alookup (aerase l k) k = none := by
  induction l with
  | nil => rfl
  | cons p l ih =>
    obtain ⟨k₁, v₁⟩ := p
    simp only [AWF, List.map_cons, List.nodup_cons] at h
    by_cases h1 : k₁ = k
    · subst h1
      simpa [aerase] using alookup_eq_none h.1
    · simp [aerase, h1, alookup, ih h.2]

/-- Erasing one key leaves lookups of other keys unchanged. -/
theorem alookup_aerase_ne {β : Type} (l : List (String × β)) {k k' : String}
    (h : k' ≠ k) : alookup (aerase l k) k' = alookup l k' := by
  induction l with
  | nil => rfl
  | cons p l ih =>
    obtain ⟨k₁, v₁⟩ := p
    by_cases h1 : k₁ = k
    · subst h1
      simp [aerase, alookup, Ne.symm h]
    · simp only [aerase, if_neg h1, alookup]
      by_cases h2 : k₁ = k' <;> simp [h2, ih]

/-- Erasing a present key shrinks the cardinality by one. -/
theorem length_aerase_isSome {β : Type} {l : List (String × β)} {k : String}
    (h : (alookup l k).isSome) : (aerase l k).length + 1 = l.length := by
  induction l with
  | nil => simp [alookup] at h
  | cons p l ih =>
    obtain ⟨k₁, v₁⟩ := p
    by_cases h1 : k₁ = k
    · simp [aerase, h1]
    · simp only [alookup, if_neg h1] at h
      simp [aerase, if_neg h1, ih h]

/-- A successful lookup exhibits a member pair. -/
theorem alookup_mem {β : Type} {l : List (String × β)} {k : String} {v : β}
    (h : alookup l k = some v) : (k, v) ∈ l := by
  induction l with
  | nil => simp [alookup] at h
  | cons p l ih =>
    obtain ⟨k₁, v₁⟩ := p
    by_cases h1 : k₁ = k
    · subst h1
      have hv : v₁ = v := by simpa [alookup] using h
      subst hv
      exact List.mem_cons_self _ _
    · simp only [alookup, if_neg h1] at h
      exact List.mem_cons_of_mem _ (ih h)

/-- In a well-formed map, membership determines the lookup result. -/
theorem mem_alookup {β : Type} {l : List (String × β)} {k : String} {v : β}
    (hwf : AWF l) (h : (k, v) ∈ l) : alookup l k = some v := by
  induction l with
  | nil => simp at h
  | cons p l ih =>
    obtain ⟨k₁, v₁⟩ := p
    simp only [AWF, List.map_cons, List.nodup_cons] at hwf
    rcases List.mem_cons.mp h with h | h
    · have h1 : k = k₁ := congrArg Prod.fst h
      have h2 : v = v₁ := congrArg Prod.snd h
      subst h1
      subst h2
      simp [alookup]
    · have hk : k₁ ≠ k := by
        rintro rfl
        exact hwf.1 (List.mem_map.mpr ⟨(k₁, v), h, rfl⟩)
      simp [alookup, hk, ih hwf.2 h]

/-- Lookup succeeds exactly on the keys of the map. -/
theorem alookup_isSome_iff {β : Type} (l : List (String × β)) (k : String) :
    (alookup l k).isSome ↔ k ∈ l.map Prod.fst := by
  induction l with
  | nil => simp [alookup]
  | cons p l ih =>
    obtain ⟨k₁, v₁⟩ := p
    by_cases h1 : k₁ = k
    · simp [alookup, h1]
    · simp only [alookup, if_neg h1, List.map_cons, List.mem_cons]
      rw [ih]
      constructor
      · exact fun h => Or.inr h
      · rintro (h | h)
        · exact absurd h.symm h1
        · exact h

/-- In a well-formed map two member pairs with the same key agree. -/
theorem AWF_mem_unique {β : Type} {l : List (String × β)} {k : String} {v v' : β}
    (hwf : AWF l) (h : (k, v) ∈ l) (h' : (k, v') ∈ l) : v = v' := by
  have e1 := mem_alookup hwf h
  have e2 := mem_alookup hwf h'
  rw [e1] at e2
  exact Option.some.inj e2

/-- Insertion produces a permutation of consing. -/
theorem perm_insLe {α : Type} (le : α → α → Bool) (a : α) (l : List α) :
    (insLe le a l).Perm (a :: l) := by
  induction l with
  | nil => simp [insLe]
  | cons b l ih =>
    by_cases h : le a b
    · simp [insLe, h]
    · simp only [insLe, if_neg h]
      exact (ih.cons b).trans (List.Perm.swap a b l)

/-- The sort produces a permutation of its input. -/
theorem perm_sortLe {α : Type} (le : α → α → Bool) (l : List α) :
    (sortLe le l).Perm l := by
  induction l with
  | nil => simp [sortLe]
  | cons a l ih =>
    exact (perm_insLe le a (sortLe le l)).trans (ih.cons a)

/-- Inserting into a le-sorted list keeps it le-sorted, given that le
is total. -/
theorem pairwise_insLe {α : Type} (le : α → α → Bool)
    (htot : ∀ a b, le a b = true ∨ le b a = true)
    (htrans : ∀ a b c, le a b = true → le b c = true → le a c = true)
    (a : α) (l : List α)
    (h : l.Pairwise (fun x y => le x y = true)) :
    (insLe le a l).Pairwise (fun x y => le x y = true) := by
  induction l with
  | nil => simp [insLe]
  | cons b l ih =>
    rcases List.pairwise_cons.mp h with ⟨hb, hl⟩
    by_cases hab : le a b
    · simp only [insLe, if_pos hab]
      refine List.pairwise_cons.mpr ⟨?_, h⟩
      intro x hx
      rcases List.mem_cons.mp hx with rfl | hx
      · exact hab
      · exact htrans a b x hab (hb x hx)
    · simp only [insLe, if_neg hab]
      refine List.pairwise_cons.mpr ⟨?_, ih hl⟩
      intro x hx
      have hx' := (perm_insLe le a l).mem_iff.mp hx
      rcases List.mem_cons.mp hx' with he | hx'
      · rcases htot a b with h' | h'
        · exact absurd h' (by simpa using hab)
        · rw [he]
          exact h'
      · exact hb x hx'

/-- The sort output is le-sorted, given that le is total and
transitive. -/
theorem pairwise_sortLe {α : Type} (le : α → α → Bool)
    (htot : ∀ a b, le a b = true ∨ le b a = true)
    (htrans : ∀ a b c, le a b = true → le b c = true → le a c = true)
    (l : List α) :
    (sortLe le l).Pairwise (fun x y => le x y = true) := by
  induction l with
  | nil => simp [sortLe]
  | cons a l ih => exact pairwise_insLe le htot htrans a (sortLe le l) ih

/-- The LRU comparator is total. -/
theorem lruLe_total : ∀ a b : String × CacheItem, lruLe a b = true ∨ lruLe b a = true := by
  intro a b
  simp only [lruLe, decide_eq_true_eq]
  omega

/-- The LRU comparator is transitive. -/
theorem lruLe_trans : ∀ a b c : String × CacheItem,
    lruLe a b = true → lruLe b c = true → lruLe a c = true := by
  intro a b c
  simp only [lruLe, decide_eq_true_eq]
  omega

/-- Characterization of a fold of deletion-like steps over a list of
distinct, present keys: any step that erases its key from L1 and
decrements itemCount (possibly touching Redis) removes exactly those
keys and decrements the counter exactly once per key. -/
theorem foldDelGen {κ : Type} (step : CacheState → κ → CacheState) (keyOf : κ → String)
    (hl1 : ∀ s x, (step s x).l1 = aerase s.l1 (keyOf x))
    (hcnt : ∀ s x, (step s x).itemCount = s.itemCount - 1) :
    ∀ (xs : List κ) (st : CacheState), AWF st.l1 → (xs.map keyOf).Nodup →
      (∀ x ∈ xs, keyOf x ∈ st.l1.map Prod.fst) →
      AWF (xs.foldl step st).l1
      ∧ ((xs.foldl step st).l1.length + xs.length = st.l1.length)
      ∧ ((xs.foldl step st).itemCount = st.itemCount - xs.length)
      ∧ (∀ k, k ∉ xs.map keyOf → alookup (xs.foldl step st).l1 k = alookup st.l1 k)
      ∧ (∀ x ∈ xs, alookup (xs.foldl step st).l1 (keyOf x) = none)
      ∧ (∀ q ∈ (xs.foldl step st).l1, q ∈ st.l1) := by
  intro xs
  induction xs with
  | nil =>
    intro st hwf _ _
    refine ⟨hwf, by simp, by simp, fun k _ => rfl, by simp, fun q hq => hq⟩
  | cons x xs ih =>
    intro st hwf hnd hmem
    simp only [List.map_cons, List.nodup_cons] at hnd
    have hx : keyOf x ∈ st.l1.map Prod.fst := hmem x (List.mem_cons_self _ _)
    have hxSome : (alookup st.l1 (keyOf x)).isSome :=
      (alookup_isSome_iff st.l1 (keyOf x)).mpr hx
    set st1 := step st x with hst1
    have h1 : st1.l1 = aerase st.l1 (keyOf x) := hl1 st x
    have h2 : st1.itemCount = st.itemCount - 1 := hcnt st x
    have hwf1 : AWF st1.l1 := h1 ▸ AWF_aerase _ hwf
    have hlen1 : st1.l1.length + 1 = st.l1.length := by
      rw [h1]
      exact length_aerase_isSome hxSome
    have hlook1 : ∀ k, k ≠ keyOf x → alookup st1.l1 k = alookup st.l1 k := by
      intro k hk
      rw [h1]
      exact alookup_aerase_ne _ hk
    have hmem1 : ∀ y ∈ xs, keyOf y ∈ st1.l1.map Prod.fst := by
      intro y hy
      have hne : keyOf y ≠ keyOf x := by
        intro he
        exact hnd.1 (he ▸ List.mem_map.mpr ⟨y, hy, rfl⟩)
      have := hmem y (List.mem_cons_of_mem _ hy)
      rw [← alookup_isSome_iff] at this ⊢
      rw [hlook1 _ hne]
      exact this
    obtain ⟨ha, hb, hc, hd, he, hf⟩ := ih st1 hwf1 hnd.2 hmem1
    simp only [List.foldl_cons, ← hst1]
    refine ⟨ha, by simp only [List.length_cons]; omega,
      by simp only [List.length_cons]; push_cast; omega, ?_, ?_, ?_⟩
    · intro k hk
      simp only [List.map_cons, List.mem_cons] at hk
      push_neg at hk
      rw [hd k hk.2, hlook1 k hk.1]
    · intro y hy
      rcases List.mem_cons.mp hy with he' | hy'
      · have hny : keyOf y ∉ xs.map keyOf := by
          rw [he']
          exact hnd.1
        rw [hd _ hny, he', h1]
        exact alookup_aerase_self hwf
      · exact he y hy'
    · intro q hq
      have := hf q hq
      rw [h1] at this
      exact (aerase_sublist _ _).mem this

/-- evictStep erases its key from L1. -/
theorem evictStep_l1 (cfg : Config) (now : Int) (s : CacheState) (p : String × CacheItem) :
    (evictStep cfg now s p).l1 = aerase s.l1 p.1 := by
  simp only [evictStep, stDeleteDec, spill]
  by_cases h2 : cfg.EnableL2Cache <;> by_cases h3 : 0 < p.2.ExpireTime - now <;>
    simp [h2, h3]

/-- evictStep decrements itemCount. -/
theorem evictStep_itemCount (cfg : Config) (now : Int) (s : CacheState)
    (p : String × CacheItem) :
    (evictStep cfg now s p).itemCount = s.itemCount - 1 := by
  simp only [evictStep, stDeleteDec, spill]
  by_cases h2 : cfg.EnableL2Cache <;> by_cases h3 : 0 < p.2.ExpireTime - now <;>
    simp [h2, h3]

/-- The pairs fed to the eviction loop: the snapshot sorted by access
time, truncated to the number of items actually evicted. -/
def evictPrefix (st : CacheState) (count : Int) : List (String × CacheItem) :=
  (sortLe lruLe st.l1).take (min count.toNat (sortLe lruLe st.l1).length)

/-- evictLRU is the fold of evictStep over evictPrefix. -/
theorem evictLRU_eq_fold (cfg : Config) (st : CacheState) (count now : Int) :
    evictLRU cfg st count now = (evictPrefix st count).foldl (evictStep cfg now) st := rfl

/-- The sorted snapshot is a permutation of L1. -/
theorem perm_sorted_l1 (st : CacheState) : (sortLe lruLe st.l1).Perm st.l1 :=
  perm_sortLe lruLe st.l1

/-- The eviction prefix has distinct keys and all of them are present,
provided L1 is well-formed. -/
theorem evictPrefix_nodup_mem (st : CacheState) (count : Int) (hwf : AWF st.l1) :
    ((evictPrefix st count).map Prod.fst).Nodup
    ∧ (∀ p ∈ evictPrefix st count, p.1 ∈ st.l1.map Prod.fst)
    ∧ (evictPrefix st count).length = min count.toNat st.l1.length := by
  have hperm := perm_sorted_l1 st
  have hnd : ((sortLe lruLe st.l1).map Prod.fst).Nodup :=
    (hperm.map Prod.fst).nodup_iff.mpr hwf
  have hsub : (evictPrefix st count).Sublist (sortLe lruLe st.l1) :=
    List.take_sublist _ _
  refine ⟨hnd.sublist (hsub.map Prod.fst), ?_, ?_⟩
  · intro p hp
    have : p ∈ st.l1 := hperm.mem_iff.mp (hsub.mem hp)
    exact List.mem_map.mpr ⟨p, this, rfl⟩
  · simp only [evictPrefix, List.length_take]
    rw [hperm.length_eq]
    omega

/-- Exact effect of evictLRU on the counter, cardinality, lookups and
membership, from a well-formed state. -/
theorem evictLRU_spec (cfg : Config) (st : CacheState) (count now : Int)
    (hwf : AWF st.l1) :
    AWF (evictLRU cfg st count now).l1
    ∧ (evictLRU cfg st count now).l1.length + min count.toNat st.l1.length = st.l1.length
    ∧ (evictLRU cfg st count now).itemCount
        = st.itemCount - ((min count.toNat st.l1.length : Nat) : Int)
    ∧ (∀ k, k ∉ (evictPrefix st count).map Prod.fst →
        alookup (evictLRU cfg st count now).l1 k = alookup st.l1 k)
    ∧ (∀ p ∈ evictPrefix st count, alookup (evictLRU cfg st count now).l1 p.1 = none)
    ∧ (∀ q ∈ (evictLRU cfg st count now).l1, q ∈ st.l1) := by
  obtain ⟨hnd, hmem, hlen⟩ := evictPrefix_nodup_mem st count hwf
  obtain ⟨ha, hb, hc, hd, he, hf⟩ :=
    foldDelGen (evictStep cfg now) Prod.fst (fun s x => evictStep_l1 cfg now s x)
      (fun s x => evictStep_itemCount cfg now s x) (evictPrefix st count) st hwf hnd hmem
  rw [evictLRU_eq_fold]
  refine ⟨ha, by omega, by rw [hc, hlen], hd, he, hf⟩

/-- evictLRU never touches the invariant: from an Inv state it leaves
an Inv state. -/
theorem Inv_evictLRU (cfg : Config) (st : CacheState) (count now : Int) (h : Inv st) :
    Inv (evictLRU cfg st count now) := by
  obtain ⟨hwf, hcount⟩ := h
  obtain ⟨ha, hb, hc, _, _, _⟩ := evictLRU_spec cfg st count now hwf
  exact ⟨ha, by omega⟩

/-- spill leaves L1 untouched. -/
theorem spill_l1 (cfg : Config) (now : Int) (st : CacheState) (k : String)
    (it : CacheItem) : (spill cfg now st k it).l1 = st.l1 := by
  unfold spill
  split_ifs <;> rfl

/-- spill leaves the counter untouched. -/
theorem spill_itemCount (cfg : Config) (now : Int) (st : CacheState) (k : String)
    (it : CacheItem) : (spill cfg now st k it).itemCount = st.itemCount := by
  unfold spill
  split_ifs <;> rfl

/-- writebackPhase leaves L1 untouched. -/
theorem writebackPhase_l1 (st1 : CacheState) (k : String) (item : CacheItem) :
    (writebackPhase st1 k item).l1 = st1.l1 := rfl

/-- writebackPhase leaves the counter untouched. -/
theorem writebackPhase_itemCount (st1 : CacheState) (k : String) (item : CacheItem) :
    (writebackPhase st1 k item).itemCount = st1.itemCount := rfl

/-- The L2 write phase of Set touches only the Redis component. -/
theorem l2SetPhase_proj (cfg : Config) (st1 : CacheState) (k : String) (item : CacheItem) :
    (l2SetPhase cfg st1 k item).1.l1 = st1.l1
    ∧ (l2SetPhase cfg st1 k item).1.itemCount = st1.itemCount := by
  unfold l2SetPhase
  by_cases h : cfg.EnableL2Cache
  · cases hr : st1.redis <;> simp [h, hr, redisSet]
  · simp [h]

/-- The L2 phase of Delete touches only the Redis component. -/
theorem l2DelPhase_proj (cfg : Config) (st1 : CacheState) (k : String) :
    (l2DelPhase cfg st1 k).1.l1 = st1.l1
    ∧ (l2DelPhase cfg st1 k).1.itemCount = st1.itemCount := by
  unfold l2DelPhase
  by_cases h : cfg.EnableL2Cache
  · cases hr : st1.redis <;> simp [h, hr, redisDel]
  · simp [h]

/-- The L2 phase of Clear touches only the Redis component. -/
theorem l2FlushPhase_proj (cfg : Config) (st1 : CacheState) :
    (l2FlushPhase cfg st1).1.l1 = st1.l1
    ∧ (l2FlushPhase cfg st1).1.itemCount = st1.itemCount := by
  unfold l2FlushPhase
  by_cases h : cfg.EnableL2Cache
  · cases hr : st1.redis <;> simp [h, hr, redisFlush]
  · simp [h]

/-- Deleting a present key preserves the invariant. -/
theorem Inv_stDeleteDec (st : CacheState) (k : String) (h : Inv st)
    (hk : (alookup st.l1 k).isSome) : Inv (stDeleteDec st k) := by
  refine ⟨AWF_aerase _ h.1, ?_⟩
  have hlen := length_aerase_isSome hk
  have hc := h.2
  simp only [stDeleteDec]
  omega

/-- The L1 upsert of Set preserves the invariant. -/
theorem Inv_setL1Insert (st : CacheState) (k : String) (item : CacheItem) (h : Inv st) :
    Inv (setL1Insert st k item) := by
  obtain ⟨hwf, hcnt⟩ := h
  refine ⟨AWF_astore _ _ hwf, ?_⟩
  show (if (alookup st.l1 k).isSome then st.itemCount else st.itemCount + 1)
      = ((astore st.l1 k item).length : Int)
  by_cases hk : (alookup st.l1 k).isSome
  · rw [if_pos hk, length_astore_isSome item hk]
    exact hcnt
  · rw [if_neg hk, length_astore_none item (Option.not_isSome_iff_eq_none.mp hk)]
    push_cast
    omega

/-- The L1 phase of Set preserves the invariant. -/
theorem Inv_setL1Phase (cfg : Config) (st : CacheState) (k : String) (item : CacheItem)
    (now : Int) (h : Inv st) : Inv (setL1Phase cfg st k item now) := by
  unfold setL1Phase
  have hInv' := Inv_setL1Insert st k item h
  by_cases h1 : cfg.EnableL1Cache
  · simp only [if_pos h1]
    split
    · exact Inv_evictLRU _ _ _ _ hInv'
    · exact hInv'
  · simp only [if_neg h1]
    exact h

/-- The promotion insert preserves the invariant when the key is
absent. -/
theorem Inv_promoteInsert (st : CacheState) (k : String) (item : CacheItem) (h : Inv st)
    (hk : alookup st.l1 k = none) : Inv (promoteInsert st k item) := by
  obtain ⟨hwf, hcnt⟩ := h
  refine ⟨AWF_astore _ _ hwf, ?_⟩
  show st.itemCount + 1 = ((astore st.l1 k item).length : Int)
  rw [length_astore_none item hk]
  push_cast
  omega

/-- The promotion phase preserves the invariant provided the key is
absent from L1 whenever L1 is enabled (which the Get control flow
guarantees). -/
theorem Inv_promotePhase (cfg : Config) (st : CacheState) (k : String) (item : CacheItem)
    (now : Int) (h : Inv st) (hnone : cfg.EnableL1Cache = true → alookup st.l1 k = none) :
    Inv (promotePhase cfg st k item now) := by
  unfold promotePhase
  by_cases h1 : cfg.EnableL1Cache && cfg.promotion item now
  · simp only [if_pos h1]
    have hl1 : cfg.EnableL1Cache = true := (Bool.and_eq_true _ _ |>.mp h1).1
    have hInv' := Inv_promoteInsert st k item h (hnone hl1)
    split
    · exact Inv_evictLRU _ _ _ _ hInv'
    · exact hInv'
  · simp only [if_neg h1]
    exact h

/-- The L2 read path of Get preserves the invariant provided the key
is absent from L1 whenever L1 is enabled. -/
theorem Inv_GetL2 (cfg : Config) (st : CacheState) (k : String) (now : Int) (h : Inv st)
    (hnone : cfg.EnableL1Cache = true → alookup st.l1 k = none) :
    Inv (GetL2 cfg st k now).2 := by
  unfold GetL2
  by_cases h2 : cfg.EnableL2Cache
  · simp only [if_pos h2]
    cases hf : l2fetch st.redis k with
    | none => exact h
    | some ser =>
      by_cases hlive : now < (unmarshalItem ser).ExpireTime
      · simp only [if_pos hlive]
        have hp := Inv_promotePhase cfg st k (bump (unmarshalItem ser) now) now h hnone
        exact ⟨by rw [writebackPhase_l1]; exact hp.1,
          by rw [writebackPhase_itemCount, writebackPhase_l1]; exact hp.2⟩
      · simp only [if_neg hlive]
        exact h
  · simp only [if_neg h2]
    exact h

/-- Get preserves the invariant. -/
theorem Inv_Get (cfg : Config) (st : CacheState) (k : String) (now : Int) (h : Inv st) :
    Inv (Get cfg st k now).2 := by
  unfold Get
  by_cases h1 : cfg.EnableL1Cache
  · simp only [if_pos h1]
    cases hk : alookup st.l1 k with
    | some item =>
      by_cases hlive : now < item.ExpireTime
      · simp only [if_pos hlive]
        refine ⟨AWF_astore _ _ h.1, ?_⟩
        have hkSome : (alookup st.l1 k).isSome := by simp [hk]
        rw [show ({ st with l1 := astore st.l1 k (bump item now) } : CacheState).l1
            = astore st.l1 k (bump item now) from rfl]
        rw [length_astore_isSome _ hkSome]
        exact h.2
      · simp only [if_neg hlive]
        have hkSome : (alookup st.l1 k).isSome := by simp [hk]
        refine Inv_GetL2 cfg _ k now (Inv_stDeleteDec st k h hkSome) ?_
        intro _
        exact alookup_aerase_self h.1
    | none => exact Inv_GetL2 cfg st k now h (fun _ => hk)
  · simp only [if_neg h1]
    exact Inv_GetL2 cfg st k now h (fun hc => absurd hc h1)

/-- A state with an invariant L1 part stays invariant through an
L2-only transformation. -/
theorem Inv_of_proj {st1 st2 : CacheState} (h : Inv st1) (e1 : st2.l1 = st1.l1)
    (e2 : st2.itemCount = st1.itemCount) : Inv st2 := by
  refine ⟨e1 ▸ h.1, ?_⟩
  rw [e2, e1]
  exact h.2

/-- Set preserves the invariant. -/
theorem Inv_Set (cfg : Config) (st : CacheState) (k : String) (v : GoValue)
    (ttl now : Int) (h : Inv st) : Inv (Set cfg st k v ttl now).1 := by
  unfold Set
  obtain ⟨e1, e2⟩ := l2SetPhase_proj cfg (setL1Phase cfg st k (mkItem v ttl now) now) k
    (mkItem v ttl now)
  exact Inv_of_proj (Inv_setL1Phase cfg st k (mkItem v ttl now) now h) e1 e2

/-- The L1 phase of Delete preserves the invariant. -/
theorem Inv_delL1Phase (cfg : Config) (st : CacheState) (k : String) (h : Inv st) :
    Inv (delL1Phase cfg st k) := by
  unfold delL1Phase
  split
  · split
    · exact Inv_stDeleteDec st k h (by assumption)
    · exact h
  · exact h

/-- Delete preserves the invariant. -/
theorem Inv_Delete (cfg : Config) (st : CacheState) (k : String) (h : Inv st) :
    Inv (Delete cfg st k).1 := by
  unfold Delete
  obtain ⟨e1, e2⟩ := l2DelPhase_proj cfg (delL1Phase cfg st k) k
  exact Inv_of_proj (Inv_delL1Phase cfg st k h) e1 e2

/-- The L1 phase of Clear preserves the invariant. -/
theorem Inv_clearL1Phase (cfg : Config) (st : CacheState) (h : Inv st) :
    Inv (clearL1Phase cfg st) := by
  unfold clearL1Phase
  split
  · exact ⟨by simp [AWF], by simp⟩
  · exact h

/-- Clear preserves the invariant. -/
theorem Inv_Clear (cfg : Config) (st : CacheState) (h : Inv st) : Inv (Clear cfg st).1 := by
  unfold Clear
  obtain ⟨e1, e2⟩ := l2FlushPhase_proj cfg (clearL1Phase cfg st)
  exact Inv_of_proj (Inv_clearL1Phase cfg st h) e1 e2

/-- demoteStep preserves the invariant unconditionally: it re-checks
presence before deleting. -/
theorem Inv_demoteStep (cfg : Config) (now : Int) (st : CacheState) (k : String)
    (h : Inv st) : Inv (demoteStep cfg now st k) := by
  unfold demoteStep
  cases hk : alookup st.l1 k with
  | none => exact h
  | some item =>
    have hsp : Inv (spill cfg now st k item) :=
      ⟨by rw [spill_l1]; exact h.1, by rw [spill_itemCount, spill_l1]; exact h.2⟩
    refine Inv_stDeleteDec _ k hsp ?_
    rw [spill_l1]
    simp [hk]

/-- Folding an invariant-preserving step preserves the invariant. -/
theorem Inv_foldl {κ : Type} (step : CacheState → κ → CacheState)
    (hstep : ∀ s x, Inv s → Inv (step s x)) :
    ∀ (xs : List κ) (st : CacheState), Inv st → Inv (xs.foldl step st) := by
  intro xs
  induction xs with
  | nil => exact fun st h => h
  | cons x xs ih => exact fun st h => ih _ (hstep st x h)

/-- Keys of a filtered well-formed map are distinct. -/
theorem filter_keys_nodup {β : Type} (l : List (String × β)) (f : String × β → Bool)
    (h : AWF l) : ((l.filter f).map Prod.fst).Nodup :=
  h.sublist ((l.filter_sublist (p := f)).map Prod.fst)

/-- Keys of a filtered map belong to the map's keys. -/
theorem filter_keys_mem {β : Type} (l : List (String × β)) (f : String × β → Bool) :
    ∀ k ∈ (l.filter f).map Prod.fst, k ∈ l.map Prod.fst := by
  intro k hk
  exact ((l.filter_sublist (p := f)).map Prod.fst).mem hk

/-- The expiry purge loop preserves the invariant. -/
theorem Inv_expiredFold (st : CacheState) (now : Int) (h : Inv st) :
    Inv ((expiredKeysOf st.l1 now).foldl (fun s k => stDeleteDec s k) st) := by
  have hnd : ((expiredKeysOf st.l1 now).map (fun kk => kk)).Nodup := by
    rw [List.map_id']
    exact filter_keys_nodup _ _ h.1
  have hmem : ∀ x ∈ expiredKeysOf st.l1 now, (fun kk => kk) x ∈ st.l1.map Prod.fst := by
    intro x hx
    exact filter_keys_mem _ _ x hx
  obtain ⟨ha, hb, hc, _, _, _⟩ :=
    foldDelGen (fun s kk => stDeleteDec s kk) (fun kk => kk)
      (fun _ _ => rfl) (fun _ _ => rfl) (expiredKeysOf st.l1 now) st h.1 hnd hmem
  refine ⟨ha, ?_⟩
  have hcnt := h.2
  omega

/-- The purge-and-demote phases of the maintenance sweep preserve the
invariant. -/
theorem Inv_cleanupPhase1 (cfg : Config) (st : CacheState) (now : Int) (h : Inv st) :
    Inv (cleanupPhase1 cfg st now) := by
  unfold cleanupPhase1
  exact Inv_foldl (demoteStep cfg now) (fun s x => Inv_demoteStep cfg now s x) _ _
    (Inv_expiredFold st now h)

/-- The full maintenance sweep preserves the invariant. -/
theorem Inv_cleanupExpiredItems (cfg : Config) (st : CacheState) (now : Int)
    (h : Inv st) : Inv (cleanupExpiredItems cfg st now) := by
  unfold cleanupExpiredItems
  split
  · exact Inv_evictLRU _ _ _ _ (Inv_cleanupPhase1 cfg st now h)
  · exact Inv_cleanupPhase1 cfg st now h

/-- The L2 read paths of Get and GetWithTTL produce the same state
and the same value (GetWithTTL merely adds the TTL component): the
positive-TTL test of GetWithTTL coincides with the expiry double-check
of Get because the Redis deadline is the envelope's expire_time. -/
theorem GetWithTTLL2_eq (cfg : Config) (st : CacheState) (k : String) (now : Int) :
    (GetWithTTLL2 cfg st k now).2 = (GetL2 cfg st k now).2
    ∧ (GetWithTTLL2 cfg st k now).1.map Prod.fst = (GetL2 cfg st k now).1 := by
  unfold GetWithTTLL2 GetL2
  by_cases h2 : cfg.EnableL2Cache
  · simp only [if_pos h2]
    cases hf : l2fetch st.redis k with
    | none => simp [l2ttl, hf]
    | some ser =>
      simp only [l2ttl, hf, Option.map_some']
      by_cases hle : ser.sExpire - now ≤ 0
      · have hnl : ¬ now < (unmarshalItem ser).ExpireTime := by
          simp only [unmarshalItem]
          omega
        simp [hle, hnl]
      · have hl : now < (unmarshalItem ser).ExpireTime := by
          simp only [unmarshalItem]
          omega
        simp [hle, hl]
  · simp [h2]

/-- GetWithTTL produces the same state as Get and the same value,
merely annotated with a TTL. -/
theorem GetWithTTL_eq (cfg : Config) (st : CacheState) (k : String) (now : Int) :
    (GetWithTTL cfg st k now).2 = (Get cfg st k now).2
    ∧ (GetWithTTL cfg st k now).1.map Prod.fst = (Get cfg st k now).1 := by
  unfold GetWithTTL Get
  by_cases h1 : cfg.EnableL1Cache
  · simp only [if_pos h1]
    cases hk : alookup st.l1 k with
    | some item =>
      by_cases hlive : now < item.ExpireTime
      · simp [hlive]
      · simp only [if_neg hlive]
        exact GetWithTTLL2_eq cfg _ k now
    | none => exact GetWithTTLL2_eq cfg st k now
  · simp only [if_neg h1]
    exact GetWithTTLL2_eq cfg st k now

/-- GetWithTTL preserves the invariant. -/
theorem Inv_GetWithTTL (cfg : Config) (st : CacheState) (k : String) (now : Int)
    (h : Inv st) : Inv (GetWithTTL cfg st k now).2 := by
  rw [(GetWithTTL_eq cfg st k now).1]
  exact Inv_Get cfg st k now h

/-- Whether the L1 tier serves the read: the key is present, live,
and L1 is enabled. -/
def l1Hit (cfg : Config) (st : CacheState) (k : String) (now : Int) : Option CacheItem :=
  if cfg.EnableL1Cache then
    match alookup st.l1 k with
    | some item => if now < item.ExpireTime then some item else none
    | none => none
  else none

/-- On its L2 path, GetWithTTL returns exactly the Redis-reported TTL
on a hit, and misses whenever the TTL query fails or reports a
non-positive duration. -/
theorem GetWithTTLL2_ttl (cfg : Config) (st : CacheState) (k : String) (now : Int) :
    (∀ v t, (GetWithTTLL2 cfg st k now).1 = some (v, t) → l2ttl st.redis k now = some t)
    ∧ (l2ttl st.redis k now = none → (GetWithTTLL2 cfg st k now).1 = none)
    ∧ (∀ t, l2ttl st.redis k now = some t → t ≤ 0 → (GetWithTTLL2 cfg st k now).1 = none) := by
  unfold GetWithTTLL2
  by_cases h2 : cfg.EnableL2Cache
  · simp only [if_pos h2]
    cases ht : l2ttl st.redis k now with
    | none => simp
    | some t =>
      cases hf : l2fetch st.redis k with
      | none =>
        rw [l2ttl, hf] at ht
        cases ht
      | some ser =>
        rw [l2ttl, hf, Option.map_some'] at ht
        by_cases hle : t ≤ 0
        · simp [hle]
        · simp only [if_neg hle]
          refine ⟨?_, ?_, ?_⟩
          · intro v t' he
            have he2 : t = t' := congrArg Prod.snd (Option.some.inj he)
            rw [he2]
          · intro hc
            exact Option.noConfusion hc
          · intro t' he hle'
            rw [← Option.some.inj he] at hle'
            exact absurd hle' hle
  · simp [h2]

/-- The default promotion strategy installed by NewMultiLevelCache,
cache.go line 78. -/
def defaultPromotion : CacheItem → Int → Bool :=
  (FrequencyBasedStrategy.mk 3 60 0).ShouldPromote

/-- The default demotion strategy installed by NewMultiLevelCache,
cache.go line 82. -/
def defaultDemotion : CacheItem → Int → Bool :=
  (FrequencyBasedStrategy.mk 0 0 300).ShouldDemote

/-- C9: the frequency policy promotes exactly when threshold > 0 and
window > 0 and now - create_time ≤ window and access_count ≥
threshold, and demotes exactly when idle > 0 and now - access_time ≥
idle; both are pure Lean functions of the entry and now, mirroring
strategy.go lines 36-65 where the only impurity is reading the clock. -/
theorem claim9_frequency_policy (s : FrequencyBasedStrategy) (item : CacheItem)
    (now : Int) :
    (s.ShouldPromote item now = true ↔
      0 < s.accessThreshold ∧ 0 < s.timeWindow ∧ now - item.CreateTime ≤ s.timeWindow
        ∧ s.accessThreshold ≤ item.AccessCount)
    ∧ (s.ShouldDemote item now = true ↔
      0 < s.idleTime ∧ s.idleTime ≤ now - item.AccessTime) := by
  constructor
  · unfold FrequencyBasedStrategy.ShouldPromote
    split_ifs with h1 h2
    · simp only [true_iff]
      exact ⟨h1.1, h1.2, h2.1, h2.2⟩
    · simp only [Bool.false_eq_true, false_iff]
      intro hc
      exact h2 ⟨hc.2.2.1, hc.2.2.2⟩
    · simp only [Bool.false_eq_true, false_iff]
      intro hc
      exact h1 ⟨hc.1, hc.2.1⟩
  · unfold FrequencyBasedStrategy.ShouldDemote
    split_ifs with h1 h2
    · simp only [true_iff]
      exact ⟨h1, h2⟩
    · simp only [Bool.false_eq_true, false_iff]
      intro hc
      exact h2 hc.2
    · simp only [Bool.false_eq_true, false_iff]
      intro hc
      exact h1 hc.1

/-- A configuration with L1 enabled and L2 disabled, as in the claim
C5 scenario (the maintenance ticker exists exactly when L1 is
enabled). -/
def cfgL1Only : Config :=
  { EnableL1Cache := true, EnableL2Cache := false, MaxL1Size := 0,
    promotion := defaultPromotion, demotion := defaultDemotion }

/-- C5 (code bug): with L1 enabled the first Close succeeds, but a
second Close reaches close(c.stopCleanup) on the already-closed
channel — cache.go line 483 guards only on cleanupTicker being
non-nil, which it still is — and closing a closed Go channel panics
(modelled as none).  The spec requires the second call to be a no-op. -/
theorem claim5_close_twice_panics :
    (Close cfgL1Only (newCloseState cfgL1Only)).isSome = true
    ∧ (Close cfgL1Only (newCloseState cfgL1Only)).bind (Close cfgL1Only) = none := by
  constructor
  · rfl
  · rfl

/-- C6 counterexample: the claim fails for integer-typed values.  An
envelope holding the Go int 42 round-trips through the L2 JSON
encoding into an envelope holding the float 42.0 (json.Unmarshal
decodes every JSON number into float64 when the target is an
interface), so the value field is not exactly preserved. -/
theorem claim6_cex_roundtrip_int :
    roundtripItem ⟨.VInt 42, 10, 0, 0, 0⟩ ≠ ⟨.VInt 42, 10, 0, 0, 0⟩ := by
  decide

/-- C6 amended: serializing then deserializing an envelope preserves
the four metadata fields exactly, and preserves the value exactly for
every payload whose dynamic type survives Go JSON decoding (null,
bool, float64, string); an int payload comes back as the equal-valued
float64. -/
theorem claim6_roundtrip_amended (it : CacheItem) :
    (roundtripItem it).ExpireTime = it.ExpireTime
    ∧ (roundtripItem it).CreateTime = it.CreateTime
    ∧ (roundtripItem it).AccessTime = it.AccessTime
    ∧ (roundtripItem it).AccessCount = it.AccessCount
    ∧ ((∀ n : Int, it.Value ≠ .VInt n) → roundtripItem it = it) := by
  obtain ⟨v, e, c, a, n⟩ := it
  refine ⟨rfl, rfl, rfl, rfl, ?_⟩
  intro hv
  cases v with
  | VNull => rfl
  | VBool b => rfl
  | VInt m => exact absurd rfl (hv m)
  | VFloat q => rfl
  | VString s => rfl

/-- Witness for C6: a concrete string-valued envelope round-trips
unchanged. -/
theorem claim6_roundtrip_witness :
    roundtripItem ⟨.VString "x", 10, 0, 0, 0⟩ = ⟨.VString "x", 10, 0, 0, 0⟩ :=
  (claim6_roundtrip_amended ⟨.VString "x", 10, 0, 0, 0⟩).2.2.2.2
    (fun _ h => GoValue.noConfusion h)

/-- With the L2 adapter failing, the L2 read path of Get misses. -/
theorem GetL2_down (cfg : Config) (st : CacheState) (k : String) (now : Int)
    (hdown : st.redis = RedisState.down) : (GetL2 cfg st k now).1 = none := by
  unfold GetL2
  rw [hdown]
  by_cases h2 : cfg.EnableL2Cache <;> simp [h2, l2fetch]

/-- With the L2 adapter failing, the L2 read path of GetWithTTL
misses. -/
theorem GetWithTTLL2_down (cfg : Config) (st : CacheState) (k : String) (now : Int)
    (hdown : st.redis = RedisState.down) : (GetWithTTLL2 cfg st k now).1 = none := by
  unfold GetWithTTLL2
  rw [hdown]
  by_cases h2 : cfg.EnableL2Cache <;> simp [h2, l2ttl, l2fetch]

/-- C8: when L1 does not serve the read (disabled, key absent, or
entry expired) and every L2 adapter call fails (a non-miss error,
modelled as the adapter being down), Get and GetWithTTL both return
the miss indicator none — their Go signatures carry no error value,
and no panic exists on this path (the model is total). -/
theorem claim8_l2_error_is_miss (cfg : Config) (st : CacheState) (k : String) (now : Int)
    (hdown : st.redis = RedisState.down) (hmiss : l1Hit cfg st k now = none) :
    (Get cfg st k now).1 = none ∧ (GetWithTTL cfg st k now).1 = none := by
  unfold Get GetWithTTL
  unfold l1Hit at hmiss
  by_cases h1 : cfg.EnableL1Cache
  · simp only [if_pos h1] at hmiss ⊢
    cases hk : alookup st.l1 k with
    | some item =>
      rw [hk] at hmiss
      by_cases hlive : now < item.ExpireTime
      · simp [hlive] at hmiss
      · simp only [hk, if_neg hlive]
        exact ⟨GetL2_down cfg _ k now hdown, GetWithTTLL2_down cfg _ k now hdown⟩
    | none =>
      simp only [hk]
      exact ⟨GetL2_down cfg st k now hdown, GetWithTTLL2_down cfg st k now hdown⟩
  · simp only [if_neg h1]
    exact ⟨GetL2_down cfg st k now hdown, GetWithTTLL2_down cfg st k now hdown⟩

/-- Witness for C8: a concrete down-adapter state. -/
theorem claim8_witness :
    (Get cfgL1Only ⟨[], 0, RedisState.down⟩ "k" 0).1 = none
    ∧ (GetWithTTL cfgL1Only ⟨[], 0, RedisState.down⟩ "k" 0).1 = none :=
  claim8_l2_error_is_miss cfgL1Only ⟨[], 0, RedisState.down⟩ "k" 0 rfl rfl

/-- C2: with a positive cap, (i) after a maintenance tick the counter
is at most the cap; (ii) after any eviction request of at least
item_count - max_l1_size items the counter is at most the cap; (iii)
the tick calls evict(item_count - max_l1_size) exactly when the
post-purge counter exceeds the positive cap (cache.go lines 158-161). -/
theorem claim2_cap_enforced (cfg : Config) (st : CacheState) (now n : Int) (h : Inv st)
    (hmax : 0 < cfg.MaxL1Size) (hn : st.itemCount - cfg.MaxL1Size ≤ n) :
    (cleanupExpiredItems cfg st now).itemCount ≤ cfg.MaxL1Size
    ∧ (evictLRU cfg st n now).itemCount ≤ cfg.MaxL1Size
    ∧ cleanupExpiredItems cfg st now =
        (if 0 < cfg.MaxL1Size ∧ cfg.MaxL1Size < (cleanupPhase1 cfg st now).itemCount then
          evictLRU cfg (cleanupPhase1 cfg st now)
            ((cleanupPhase1 cfg st now).itemCount - cfg.MaxL1Size) now
        else cleanupPhase1 cfg st now) := by
  refine ⟨?_, ?_, rfl⟩
  · unfold cleanupExpiredItems
    have h1 := Inv_cleanupPhase1 cfg st now h
    split
    case isTrue hc =>
      obtain ⟨_, _, hcnt, _, _, _⟩ :=
        evictLRU_spec cfg (cleanupPhase1 cfg st now)
          ((cleanupPhase1 cfg st now).itemCount - cfg.MaxL1Size) now h1.1
      have hlen := h1.2
      omega
    case isFalse hc =>
      omega
  · obtain ⟨_, _, hcnt, _, _, _⟩ := evictLRU_spec cfg st n now h.1
    have hlen := h.2
    omega

/-- C10: in sequential execution every public operation and the
maintenance sweep preserve the coupling of item_count with the exact
cardinality of the L1 map (together with key distinctness, i.e. the
invariant Inv). -/
theorem claim10_itemCount_exact (cfg : Config) (st : CacheState) (k : String)
    (v : GoValue) (ttl now : Int) (h : Inv st) :
    Inv (Set cfg st k v ttl now).1 ∧ Inv (Get cfg st k now).2
    ∧ Inv (GetWithTTL cfg st k now).2 ∧ Inv (Delete cfg st k).1
    ∧ Inv (Clear cfg st).1 ∧ Inv (cleanupExpiredItems cfg st now) :=
  ⟨Inv_Set cfg st k v ttl now h, Inv_Get cfg st k now h, Inv_GetWithTTL cfg st k now h,
    Inv_Delete cfg st k h, Inv_Clear cfg st h, Inv_cleanupExpiredItems cfg st now h⟩

/-- Decidable entry point for establishing the invariant on concrete
states. -/
theorem Inv_of_decide (st : CacheState) (h1 : (st.l1.map Prod.fst).Nodup)
    (h2 : st.itemCount = (st.l1.length : Int)) : Inv st := ⟨h1, h2⟩

/-- A cap-1 L1-only configuration and a two-item state used by
witnesses. -/
def cfgCap1 : Config :=
  { EnableL1Cache := true, EnableL2Cache := false, MaxL1Size := 1,
    promotion := defaultPromotion, demotion := defaultDemotion }

/-- A concrete two-item L1 state. -/
def stTwo : CacheState :=
  ⟨[("a", ⟨.VNull, 100, 0, 0, 0⟩), ("b", ⟨.VNull, 100, 1, 1, 0⟩)], 2, .down⟩

/-- Witness for C2 at the concrete cap-1 state. -/
theorem claim2_witness :
    (cleanupExpiredItems cfgCap1 stTwo 0).itemCount ≤ cfgCap1.MaxL1Size :=
  (claim2_cap_enforced cfgCap1 stTwo 0 1 (Inv_of_decide stTwo (by decide) (by decide))
    (by decide) (by decide)).1

/-- Witness for C10 at the concrete two-item state. -/
theorem claim10_witness :
    Inv (Set cfgCap1 stTwo "a" .VNull 5 0).1 ∧ Inv (Get cfgCap1 stTwo "a" 0).2
    ∧ Inv (GetWithTTL cfgCap1 stTwo "a" 0).2 ∧ Inv (Delete cfgCap1 stTwo "a").1
    ∧ Inv (Clear cfgCap1 stTwo).1 ∧ Inv (cleanupExpiredItems cfgCap1 stTwo 0) :=
  claim10_itemCount_exact cfgCap1 stTwo "a" .VNull 5 0 (Inv_of_decide stTwo (by decide) (by decide))

/-- Modelled from the spec (§4.3): the eviction order the spec
prescribes — ascending access_time, ties broken by create_time, then
by key.  The source (cache.go line 182) compares AccessTime only; this
definition exists to compare the spec's order with the code's. -/
def specEvictLess (a b : String × CacheItem) : Bool :=
  decide (a.2.AccessTime < b.2.AccessTime)
  || (decide (a.2.AccessTime = b.2.AccessTime)
      && (decide (a.2.CreateTime < b.2.CreateTime)
          || (decide (a.2.CreateTime = b.2.CreateTime) && decide (a.1 < b.1))))

/-- The quiescent snapshot used by the C3 counterexample: two entries
with equal access_time 0; entry "a" was created later (create 5) than
entry "b" (create 0). -/
def stTieC3 : CacheState :=
  ⟨[("a", ⟨.VNull, 100, 5, 0, 0⟩), ("b", ⟨.VNull, 100, 0, 0, 0⟩)], 2, .down⟩

/-- C3 counterexample: evicting one item from the quiescent tie state
removes "a" — the survivor is "b" — although ("b", ...) strictly
precedes ("a", ...) in the spec's order (equal access_time, smaller
create_time), so the removed entry is not the least entry of that
order; the outcome depends on the snapshot iteration order, which the
source never disambiguates by create_time or key. -/
theorem claim3_cex_tiebreak :
    (evictLRU cfgL1Only stTieC3 1 0).l1 = [("b", ⟨.VNull, 100, 0, 0, 0⟩)]
    ∧ specEvictLess ("b", ⟨.VNull, 100, 0, 0, 0⟩) ("a", ⟨.VNull, 100, 5, 0, 0⟩) = true := by
  constructor
  · decide
  · decide

/-- C3 amended: evicting n items from a quiescent well-formed L1
removes exactly min(n, |L1|) entries, every removed entry's
access_time is at most every survivor's access_time, and survivors
are existing entries; among equal access_times the choice follows the
snapshot iteration order and is not further determined. -/
theorem claim3_lru_amended (cfg : Config) (st : CacheState) (n now : Int) (h : Inv st) :
    (evictLRU cfg st n now).l1.length + min n.toNat st.l1.length = st.l1.length
    ∧ (∀ q ∈ (evictLRU cfg st n now).l1, q ∈ st.l1)
    ∧ (∀ p ∈ st.l1, alookup (evictLRU cfg st n now).l1 p.1 = none →
        ∀ q ∈ (evictLRU cfg st n now).l1, p.2.AccessTime ≤ q.2.AccessTime) := by
  obtain ⟨ha, hb, hc, hd, he, hf⟩ := evictLRU_spec cfg st n now h.1
  refine ⟨hb, hf, ?_⟩
  intro p hp hnone q hq
  have hpk : p.1 ∈ (evictPrefix st n).map Prod.fst := by
    by_contra hpk
    rw [hd p.1 hpk, mem_alookup h.1 hp] at hnone
    cases hnone
  obtain ⟨e, hel, hek⟩ := List.mem_map.mp hpk
  have hes : e ∈ sortLe lruLe st.l1 := (List.take_sublist _ _).mem hel
  have hest : e ∈ st.l1 := (perm_sorted_l1 st).mem_iff.mp hes
  have hest' : (p.1, e.2) ∈ st.l1 := by
    rw [← hek]
    exact hest
  have hv : p.2 = e.2 := AWF_mem_unique h.1 hp hest'
  have hpe : p = e := by
    rw [Prod.ext_iff]
    exact ⟨hek.symm, hv⟩
  have hqs : q ∈ st.l1 := hf q hq
  have hqk : q.1 ∉ (evictPrefix st n).map Prod.fst := by
    intro hqk
    obtain ⟨e', he'l, he'k⟩ := List.mem_map.mp hqk
    have h1 := he e' he'l
    rw [he'k, mem_alookup ha hq] at h1
    cases h1
  have hqsort : q ∈ sortLe lruLe st.l1 := (perm_sorted_l1 st).mem_iff.mpr hqs
  have hqdrop : q ∈ (sortLe lruLe st.l1).drop
      (min n.toNat (sortLe lruLe st.l1).length) := by
    have hsplit := List.take_append_drop (min n.toNat (sortLe lruLe st.l1).length)
      (sortLe lruLe st.l1)
    rw [← hsplit] at hqsort
    rcases List.mem_append.mp hqsort with hq1 | hq2
    · exact absurd (List.mem_map.mpr ⟨q, hq1, rfl⟩) hqk
    · exact hq2
  have hpair := pairwise_sortLe lruLe lruLe_total lruLe_trans st.l1
  rw [← List.take_append_drop (min n.toNat (sortLe lruLe st.l1).length)
    (sortLe lruLe st.l1)] at hpair
  have hle := (List.pairwise_append.mp hpair).2.2 e hel q hqdrop
  rw [hpe]
  simpa [lruLe] using hle

/-- Witness for C3's amended statement at the concrete tie state. -/
theorem claim3_witness :
    (evictLRU cfgL1Only stTieC3 1 0).l1.length + min (1 : Int).toNat stTieC3.l1.length
        = stTieC3.l1.length
    ∧ (∀ q ∈ (evictLRU cfgL1Only stTieC3 1 0).l1, q ∈ stTieC3.l1)
    ∧ (∀ p ∈ stTieC3.l1, alookup (evictLRU cfgL1Only stTieC3 1 0).l1 p.1 = none →
        ∀ q ∈ (evictLRU cfgL1Only stTieC3 1 0).l1, p.2.AccessTime ≤ q.2.AccessTime) :=
  claim3_lru_amended cfgL1Only stTieC3 1 0 (Inv_of_decide stTieC3 (by decide) (by decide))

/-- C4: on a Get that misses L1 and finds a live L2 envelope, the
orchestrator first sets access_time := now and increments
access_count and only then evaluates the promotion policy on the
updated envelope (cache.go lines 296-311): the key lands in L1 with
exactly the updated envelope iff the policy accepts the updated
envelope (the cap hypothesis excludes the subsequent evict(1) from
touching the fresh entry).  The returned value is the updated
envelope's value. -/
theorem claim4_promotion_order (cfg : Config) (st : CacheState) (k : String) (now : Int)
    (ser : SerializedItem) (hl1 : cfg.EnableL1Cache = true)
    (hl2 : cfg.EnableL2Cache = true) (hmiss : alookup st.l1 k = none)
    (hfetch : l2fetch st.redis k = some ser)
    (hlive : now < (unmarshalItem ser).ExpireTime)
    (hcap : ¬(0 < cfg.MaxL1Size ∧ cfg.MaxL1Size < st.itemCount + 1)) :
    (Get cfg st k now).1 = some (bump (unmarshalItem ser) now).Value
    ∧ (cfg.promotion (bump (unmarshalItem ser) now) now = true →
        alookup (Get cfg st k now).2.l1 k = some (bump (unmarshalItem ser) now))
    ∧ (cfg.promotion (bump (unmarshalItem ser) now) now = false →
        alookup (Get cfg st k now).2.l1 k = none) := by
  unfold Get GetL2
  simp only [if_pos hl1, hmiss, if_pos hl2, hfetch, if_pos hlive]
  refine ⟨by trivial, ?_, ?_⟩
  · intro hp
    rw [writebackPhase_l1]
    unfold promotePhase
    rw [hl1, hp]
    simp only [Bool.and_self, if_pos]
    rw [if_neg]
    · exact alookup_astore_self st.l1 k (bump (unmarshalItem ser) now)
    · exact hcap
  · intro hp
    rw [writebackPhase_l1]
    unfold promotePhase
    rw [hp]
    simp only [Bool.and_false, Bool.false_eq_true, if_false]
    exact hmiss

/-- Scenario A configuration: L1 on with cap 10, L2 on, frequency
promotion (3, 60, 0). -/
def cfgA : Config :=
  { EnableL1Cache := true, EnableL2Cache := true, MaxL1Size := 10,
    promotion := defaultPromotion, demotion := defaultDemotion }

/-- Scenario A initial state: L1 empty, L2 holding an injected
envelope for "a" with create 0, expire 1000, access 0, count 2. -/
def stA : CacheState := ⟨[], 0, .up [("a", ⟨.jStr "x", 1000, 0, 0, 2⟩)]⟩

/-- Witness for C4: scenario A — Get("a") at t=1 promotes the
envelope into L1 with count 3 and access 1 and returns its value. -/
theorem claim4_witness :
    alookup (Get cfgA stA "a" 1).2.l1 "a" = some ⟨.VString "x", 1000, 0, 1, 3⟩
    ∧ (Get cfgA stA "a" 1).1 = some (.VString "x") := by
  have h := claim4_promotion_order cfgA stA "a" 1 ⟨.jStr "x", 1000, 0, 0, 2⟩ rfl rfl
    (by decide) (by decide) (by decide) (by decide)
  exact ⟨h.2.1 (by decide), h.1⟩

/-- When L1 serves the read, GetWithTTL returns the stored value
(after the metadata bump) together with expire_time - now. -/
theorem GetWithTTL_l1hit (cfg : Config) (st : CacheState) (k : String) (now : Int)
    (it : CacheItem) (hhit : l1Hit cfg st k now = some it) :
    (GetWithTTL cfg st k now).1 = some ((bump it now).Value, it.ExpireTime - now) := by
  unfold GetWithTTL
  unfold l1Hit at hhit
  by_cases h1 : cfg.EnableL1Cache
  · simp only [if_pos h1] at hhit ⊢
    cases hk : alookup st.l1 k with
    | some item =>
      rw [hk] at hhit
      by_cases hlive : now < item.ExpireTime
      · have hit : item = it := by simpa [hlive] using hhit
        subst hit
        simp [hk, hlive]
      · simp [hlive] at hhit
    | none =>
      rw [hk] at hhit
      cases hhit
  · simp only [if_neg h1] at hhit
    cases hhit

/-- When L1 does not serve the read, the TTL returned by GetWithTTL
is the L2-reported one, and a failed or non-positive TTL query yields
a miss. -/
theorem GetWithTTL_no_hit (cfg : Config) (st : CacheState) (k : String) (now : Int)
    (hmiss : l1Hit cfg st k now = none) :
    (∀ v t, (GetWithTTL cfg st k now).1 = some (v, t) → l2ttl st.redis k now = some t)
    ∧ (l2ttl st.redis k now = none → (GetWithTTL cfg st k now).1 = none)
    ∧ (∀ t, l2ttl st.redis k now = some t → t ≤ 0 →
        (GetWithTTL cfg st k now).1 = none) := by
  unfold GetWithTTL
  unfold l1Hit at hmiss
  by_cases h1 : cfg.EnableL1Cache
  · simp only [if_pos h1] at hmiss ⊢
    cases hk : alookup st.l1 k with
    | some item =>
      rw [hk] at hmiss
      by_cases hlive : now < item.ExpireTime
      · simp [hlive] at hmiss
      · simp only [hk, if_neg hlive]
        exact GetWithTTLL2_ttl cfg (stDeleteDec st k) k now
    | none =>
      simp only [hk]
      exact GetWithTTLL2_ttl cfg st k now
  · simp only [if_neg h1]
    exact GetWithTTLL2_ttl cfg st k now

/-- C7: GetWithTTL behaves like Get — same resulting cache state and
the same value on the same hit/miss outcome — except that it
additionally returns expire_time - now when L1 serves the read and
the L2-reported TTL when L2 serves it, and it misses whenever the L2
TTL query fails or reports a non-positive duration. -/
theorem claim7_getWithTTL_refines_get (cfg : Config) (st : CacheState) (k : String)
    (now : Int) :
    (GetWithTTL cfg st k now).2 = (Get cfg st k now).2
    ∧ (GetWithTTL cfg st k now).1.map Prod.fst = (Get cfg st k now).1
    ∧ (∀ it, l1Hit cfg st k now = some it →
        (GetWithTTL cfg st k now).1 = some ((bump it now).Value, it.ExpireTime - now))
    ∧ (l1Hit cfg st k now = none →
        (∀ v t, (GetWithTTL cfg st k now).1 = some (v, t) →
          l2ttl st.redis k now = some t)
        ∧ (l2ttl st.redis k now = none → (GetWithTTL cfg st k now).1 = none)
        ∧ (∀ t, l2ttl st.redis k now = some t → t ≤ 0 →
            (GetWithTTL cfg st k now).1 = none)) :=
  ⟨(GetWithTTL_eq cfg st k now).1, (GetWithTTL_eq cfg st k now).2,
    fun it hhit => GetWithTTL_l1hit cfg st k now it hhit,
    fun hmiss => GetWithTTL_no_hit cfg st k now hmiss⟩

/-- Witness for C7 at a concrete L1 hit. -/
theorem claim7_witness :
    (GetWithTTL cfgCap1 stTwo "a" 0).2 = (Get cfgCap1 stTwo "a" 0).2
    ∧ (GetWithTTL cfgCap1 stTwo "a" 0).1 = some (.VNull, 100) := by
  have h := claim7_getWithTTL_refines_get cfgCap1 stTwo "a" 0
  exact ⟨h.1, h.2.2.1 ⟨.VNull, 100, 0, 0, 0⟩ (by decide)⟩

/-- With the cap not binding, the L1 phase of Set is the plain
upsert. -/
theorem setL1Phase_no_evict (cfg : Config) (st : CacheState) (k : String)
    (item : CacheItem) (now : Int) (hl1 : cfg.EnableL1Cache = true)
    (hcap : ¬(0 < cfg.MaxL1Size ∧ cfg.MaxL1Size < st.itemCount + 1)) :
    setL1Phase cfg st k item now = setL1Insert st k item := by
  unfold setL1Phase
  rw [if_pos hl1, if_neg]
  intro hc
  apply hcap
  refine ⟨hc.1, ?_⟩
  have hc2 := hc.2
  by_cases hk : (alookup st.l1 k).isSome
  · have he : (setL1Insert st k item).itemCount = st.itemCount := by
      simp [setL1Insert, hk]
    omega
  · have he : (setL1Insert st k item).itemCount = st.itemCount + 1 := by
      simp [setL1Insert, hk]
    omega

/-- With L1 disabled the L1 phase of Set is the identity. -/
theorem setL1Phase_off (cfg : Config) (st : CacheState) (k : String) (item : CacheItem)
    (now : Int) (hl1 : cfg.EnableL1Cache = false) :
    setL1Phase cfg st k item now = st := by
  unfold setL1Phase
  simp [hl1]

/-- With the adapter up, the L2 phase of Set stores the serialized
envelope and succeeds. -/
theorem l2SetPhase_up (cfg : Config) (st1 : CacheState) (k : String) (item : CacheItem)
    (rs1 : List (String × SerializedItem)) (hup : st1.redis = RedisState.up rs1) :
    l2SetPhase cfg st1 k item
      = (if cfg.EnableL2Cache then
          ({ st1 with redis := RedisState.up (astore rs1 k (marshalItem item)) }, true)
        else (st1, true)) := by
  unfold l2SetPhase
  by_cases h2 : cfg.EnableL2Cache
  · rw [hup]
    simp [h2, redisSet]
  · simp [h2]

/-- With L2 disabled the L2 phase of Set is the successful identity. -/
theorem l2SetPhase_off (cfg : Config) (st1 : CacheState) (k : String) (item : CacheItem)
    (hl2 : cfg.EnableL2Cache = false) : l2SetPhase cfg st1 k item = (st1, true) := by
  unfold l2SetPhase
  simp [hl2]

/-- Get on an L1 hit returns the stored value. -/
theorem Get_l1_live (cfg : Config) (st : CacheState) (k : String) (now : Int)
    (it : CacheItem) (hl1 : cfg.EnableL1Cache = true)
    (hlook : alookup st.l1 k = some it) (hlive : now < it.ExpireTime) :
    (Get cfg st k now).1 = some it.Value := by
  unfold Get
  rw [if_pos hl1]
  simp only [hlook, if_pos hlive]
  rfl

/-- Get on an expired L1 entry deletes it and falls through to L2. -/
theorem Get_l1_expired (cfg : Config) (st : CacheState) (k : String) (now : Int)
    (it : CacheItem) (hl1 : cfg.EnableL1Cache = true)
    (hlook : alookup st.l1 k = some it) (hexp : ¬ now < it.ExpireTime) :
    Get cfg st k now = GetL2 cfg (stDeleteDec st k) k now := by
  unfold Get
  rw [if_pos hl1]
  simp only [hlook, if_neg hexp]

/-- Get with L1 disabled goes straight to L2. -/
theorem Get_l1_off (cfg : Config) (st : CacheState) (k : String) (now : Int)
    (hl1 : cfg.EnableL1Cache = false) : Get cfg st k now = GetL2 cfg st k now := by
  unfold Get
  simp [hl1]

/-- Get on an L1 miss falls through to L2. -/
theorem Get_l1_miss (cfg : Config) (st : CacheState) (k : String) (now : Int)
    (hl1 : cfg.EnableL1Cache = true) (hlook : alookup st.l1 k = none) :
    Get cfg st k now = GetL2 cfg st k now := by
  unfold Get
  rw [if_pos hl1]
  simp only [hlook]

/-- The L2 read path with L2 disabled misses and leaves the state. -/
theorem GetL2_off (cfg : Config) (st : CacheState) (k : String) (now : Int)
    (hl2 : cfg.EnableL2Cache = false) : GetL2 cfg st k now = (none, st) := by
  unfold GetL2
  simp [hl2]

/-- The L2 read path on an expired envelope misses and leaves the
state. -/
theorem GetL2_fetch_expired (cfg : Config) (st : CacheState) (k : String) (now : Int)
    (ser : SerializedItem) (hl2 : cfg.EnableL2Cache = true)
    (hf : l2fetch st.redis k = some ser)
    (hexp : ¬ now < (unmarshalItem ser).ExpireTime) :
    GetL2 cfg st k now = (none, st) := by
  unfold GetL2
  simp only [if_pos hl2, hf, if_neg hexp]

/-- The L2 read path on a live envelope returns its (bumped) value. -/
theorem GetL2_fetch_live (cfg : Config) (st : CacheState) (k : String) (now : Int)
    (ser : SerializedItem) (hl2 : cfg.EnableL2Cache = true)
    (hf : l2fetch st.redis k = some ser)
    (hlive : now < (unmarshalItem ser).ExpireTime) :
    (GetL2 cfg st k now).1 = some (bump (unmarshalItem ser) now).Value := by
  unfold GetL2
  simp only [if_pos hl2, hf, if_pos hlive]

/-- C1 (amended): after a successful Set(k, v, ttl) at time t0 that
does not itself trigger an LRU eviction, Get(k) hits until the expiry
instant and misses from it on; the value returned is exactly v when
L1 serves the read, and the JSON round-trip of v when L2 serves it
(they coincide except for int-typed values).  In the Scenario B
configuration (L1 on, L2 off, empty initial L1) the expired read
leaves item_count = 0. -/
theorem claim1_set_get_ttl (cfg : Config) (st : CacheState)
    (rs : List (String × SerializedItem)) (k : String) (v : GoValue) (ttl t0 now : Int)
    (h : Inv st) (henable : cfg.EnableL1Cache = true ∨ cfg.EnableL2Cache = true)
    (hup : st.redis = RedisState.up rs) (httl : 0 < ttl)
    (hcap : ¬(0 < cfg.MaxL1Size ∧ cfg.MaxL1Size < st.itemCount + 1)) :
    (Set cfg st k v ttl t0).2 = true
    ∧ (now < t0 + ttl →
        (Get cfg (Set cfg st k v ttl t0).1 k now).1
          = some (if cfg.EnableL1Cache then v else roundtripValue v))
    ∧ (t0 + ttl ≤ now → (Get cfg (Set cfg st k v ttl t0).1 k now).1 = none)
    ∧ (st.l1 = [] → cfg.EnableL1Cache = true → cfg.EnableL2Cache = false →
        t0 + ttl ≤ now →
        (Get cfg (Set cfg st k v ttl t0).1 k now).2.itemCount = 0) := by
  by_cases hl1 : cfg.EnableL1Cache
  · have hphase := setL1Phase_no_evict cfg st k (mkItem v ttl t0) t0 hl1 hcap
    have hup1 : (setL1Insert st k (mkItem v ttl t0)).redis = RedisState.up rs := hup
    have hset : Set cfg st k v ttl t0
        = (if cfg.EnableL2Cache then
            ({ setL1Insert st k (mkItem v ttl t0) with
               redis := RedisState.up (astore rs k (marshalItem (mkItem v ttl t0))) }, true)
          else (setL1Insert st k (mkItem v ttl t0), true)) := by
      show l2SetPhase cfg (setL1Phase cfg st k (mkItem v ttl t0) t0) k (mkItem v ttl t0)
        = _
      rw [hphase, l2SetPhase_up cfg _ k _ rs hup1]
    by_cases hl2 : cfg.EnableL2Cache
    · rw [if_pos hl2] at hset
      have hS1 : (Set cfg st k v ttl t0).1
          = ({ setL1Insert st k (mkItem v ttl t0) with
              redis := RedisState.up (astore rs k (marshalItem (mkItem v ttl t0))) }
            : CacheState) := by
        rw [hset]
      have hS2 : (Set cfg st k v ttl t0).2 = true := by
        rw [hset]
      have hlook : alookup ({ setL1Insert st k (mkItem v ttl t0) with
          redis := RedisState.up (astore rs k (marshalItem (mkItem v ttl t0))) }
            : CacheState).l1 k = some (mkItem v ttl t0) :=
        alookup_astore_self st.l1 k _
      refine ⟨hS2, ?_, ?_, ?_⟩
      · intro hlive
        rw [hS1, Get_l1_live cfg _ k now _ hl1 hlook (by simpa [mkItem] using hlive)]
        simp [mkItem, hl1]
      · intro hexp
        rw [hS1, Get_l1_expired cfg _ k now _ hl1 hlook
          (by simp only [mkItem]; omega)]
        have hf : l2fetch (stDeleteDec ({ setL1Insert st k (mkItem v ttl t0) with
            redis := RedisState.up (astore rs k (marshalItem (mkItem v ttl t0))) }
              : CacheState) k).redis k = some (marshalItem (mkItem v ttl t0)) :=
          alookup_astore_self rs k _
        rw [GetL2_fetch_expired cfg _ k now _ hl2 hf
          (by simp only [unmarshalItem, marshalItem, mkItem]; omega)]
      · intro _ _ hl2' _
        rw [hl2'] at hl2
        cases hl2
    · have hl2f : cfg.EnableL2Cache = false := by
        revert hl2
        cases cfg.EnableL2Cache <;> simp
      rw [if_neg hl2] at hset
      have hS1 : (Set cfg st k v ttl t0).1 = setL1Insert st k (mkItem v ttl t0) := by
        rw [hset]
      have hS2 : (Set cfg st k v ttl t0).2 = true := by
        rw [hset]
      have hlook : alookup (setL1Insert st k (mkItem v ttl t0)).l1 k
          = some (mkItem v ttl t0) := alookup_astore_self st.l1 k _
      refine ⟨hS2, ?_, ?_, ?_⟩
      · intro hlive
        rw [hS1, Get_l1_live cfg _ k now _ hl1 hlook (by simpa [mkItem] using hlive)]
        simp [mkItem, hl1]
      · intro hexp
        rw [hS1, Get_l1_expired cfg _ k now _ hl1 hlook (by simp only [mkItem]; omega),
          GetL2_off cfg _ k now hl2f]
      · intro hempty _ _ hexp
        rw [hS1, Get_l1_expired cfg _ k now _ hl1 hlook (by simp only [mkItem]; omega),
          GetL2_off cfg _ k now hl2f]
        show (setL1Insert st k (mkItem v ttl t0)).itemCount - 1 = 0
        have hnone : alookup st.l1 k = none := by
          rw [hempty]
          rfl
        have hcnt : st.itemCount = 0 := by
          rw [h.2, hempty]
          rfl
        simp [setL1Insert, hnone, hcnt]
  · have hl1f : cfg.EnableL1Cache = false := by
      revert hl1
      cases cfg.EnableL1Cache <;> simp
    have hl2 : cfg.EnableL2Cache = true := henable.resolve_left hl1
    have hphase := setL1Phase_off cfg st k (mkItem v ttl t0) t0 hl1f
    have hset : Set cfg st k v ttl t0
        = ({ st with
            redis := RedisState.up (astore rs k (marshalItem (mkItem v ttl t0))) }, true) := by
      show l2SetPhase cfg (setL1Phase cfg st k (mkItem v ttl t0) t0) k (mkItem v ttl t0)
        = _
      rw [hphase, l2SetPhase_up cfg st k _ rs hup, if_pos hl2]
    have hS1 : (Set cfg st k v ttl t0).1
        = ({ st with
            redis := RedisState.up (astore rs k (marshalItem (mkItem v ttl t0))) }
          : CacheState) := by
      rw [hset]
    have hS2 : (Set cfg st k v ttl t0).2 = true := by
      rw [hset]
    have hf : l2fetch ({ st with
        redis := RedisState.up (astore rs k (marshalItem (mkItem v ttl t0))) }
          : CacheState).redis k = some (marshalItem (mkItem v ttl t0)) :=
      alookup_astore_self rs k _
    refine ⟨hS2, ?_, ?_, ?_⟩
    · intro hlive
      rw [hS1, Get_l1_off cfg _ k now hl1f, GetL2_fetch_live cfg _ k now _ hl2 hf
        (by simp only [unmarshalItem, marshalItem, mkItem]; omega)]
      simp [hl1f, bump, unmarshalItem, marshalItem, mkItem, roundtripValue]
    · intro hexp
      rw [hS1, Get_l1_off cfg _ k now hl1f, GetL2_fetch_expired cfg _ k now _ hl2 hf
        (by simp only [unmarshalItem, marshalItem, mkItem]; omega)]
    · intro _ hl1' _ _
      rw [hl1'] at hl1f
      cases hl1f

/-- An L2-only configuration. -/
def cfgL2Only : Config :=
  { EnableL1Cache := false, EnableL2Cache := true, MaxL1Size := 0,
    promotion := defaultPromotion, demotion := defaultDemotion }

/-- An empty cache state with the adapter up. -/
def stEmptyUp : CacheState := ⟨[], 0, .up []⟩

/-- C1 counterexample: with L1 disabled and L2 enabled, Set("k",
int 42, ttl 5) at t=0 followed by Get("k") at t=1 (well before
expiry) returns the float 42 — the JSON round-trip through L2 loses
the value's dynamic type — and not Some(int 42) as the claim
requires. -/
theorem claim1_cex_l2_int_roundtrip :
    (Get cfgL2Only (Set cfgL2Only stEmptyUp "k" (.VInt 42) 5 0).1 "k" 1).1
      = some (.VFloat 42)
    ∧ (Get cfgL2Only (Set cfgL2Only stEmptyUp "k" (.VInt 42) 5 0).1 "k" 1).1
      ≠ some (.VInt 42) := by
  constructor
  · decide
  · decide

/-- Witness for C1: scenario B — Set("b", 42, 5) at t=0 with L1 on
and L2 off; Get at t=4 hits with 42, Get at t=6 misses and leaves
item_count = 0. -/
theorem claim1_witness :
    (Set cfgL1Only stEmptyUp "b" (.VInt 42) 5 0).2 = true
    ∧ (Get cfgL1Only (Set cfgL1Only stEmptyUp "b" (.VInt 42) 5 0).1 "b" 4).1
        = some (.VInt 42)
    ∧ (Get cfgL1Only (Set cfgL1Only stEmptyUp "b" (.VInt 42) 5 0).1 "b" 6).1 = none
    ∧ (Get cfgL1Only (Set cfgL1Only stEmptyUp "b" (.VInt 42) 5 0).1 "b" 6).2.itemCount
        = 0 := by
  have h4 := claim1_set_get_ttl cfgL1Only stEmptyUp [] "b" (.VInt 42) 5 0 4
    (Inv_of_decide stEmptyUp (by decide) (by decide)) (Or.inl rfl) rfl (by decide)
    (by decide)
  have h6 := claim1_set_get_ttl cfgL1Only stEmptyUp [] "b" (.VInt 42) 5 0 6
    (Inv_of_decide stEmptyUp (by decide) (by decide)) (Or.inl rfl) rfl (by decide)
    (by decide)
  refine ⟨h4.1, ?_, h6.2.2.1 (by decide), h6.2.2.2 rfl rfl rfl (by decide)⟩
  have hv := h4.2.1 (by decide)
  simpa using hv

end Cache
